import Mathlib

/-!
Verification model of the cloud-motive case-study repository: a document
viewer (`PDFViewer.tsx`) paired with a chat panel (`App.tsx`).  The viewer
state, the `highlightText` scan, the zoom transitions and the panel's
citation handling are embedded as executable Lean definitions, translated
from the TypeScript source; each claim of the specification is then settled
as a theorem about these definitions.
-/

/-! Section: JavaScript string primitives used by the source. -/

/-- Model of JS `String.prototype.toLowerCase` (character-wise case folding;
agrees with JS on ASCII, which is all the source's data uses). -/
def jsToLower (s : String) : String :=
  String.mk (s.data.map Char.toLower)

/-- Does `pat` occur at the head of `l`?  (Helper for substring search.) -/
def leadMatch : List Char → List Char → Bool
  | [], _ => true
  | _ :: _, [] => false
  | a :: pat, b :: l => a == b && leadMatch pat l

/-- Does `pat` occur somewhere in `l`? -/
def hasSubstr (pat : List Char) : List Char → Bool
  | [] => pat.isEmpty
  | b :: l => leadMatch pat (b :: l) || hasSubstr pat (b :: l).tail

/-- Model of JS `s.includes(sub)`: substring containment. -/
def containsSubstr (s sub : String) : Bool :=
  hasSubstr sub.data s.data

/-- Model of JS `String.prototype.trim`: drop leading and trailing
whitespace. -/
def jsTrim (s : String) : String :=
  String.mk (((s.data.dropWhile Char.isWhitespace).reverse.dropWhile
    Char.isWhitespace).reverse)

/-! Section: viewer data model (`PDFViewer.tsx`).

A rendered page's text layer is an ordered list of text nodes.  Each text
node is modelled together with its parent element's highlight marking
(`classList` containing `highlighted-text`); in the pdf.js text layer every
text node sits in its own `span`, so the parent element is carried as a
boolean on the node itself. -/

structure TextNode where
  value : String
  highlighted : Bool
deriving Repr, DecidableEq

abbrev TextLayer := List TextNode

/-- The rendered document: pages in order, each with its text layer. -/
abbrev ViewerDoc := List TextLayer

/-- Lines 34-38 of `PDFViewer.tsx`: remove the highlight class from every
currently highlighted element. -/
def clearHighlights (doc : ViewerDoc) : ViewerDoc :=
  doc.map (fun layer => layer.map (fun n => { n with highlighted := false }))

/-- Line 55 of `PDFViewer.tsx`: `node.nodeValue && node.nodeValue
.toLowerCase().includes(searchText)` — the search text arrives already
lower-cased. -/
def nodeMatches (searchText : String) (n : TextNode) : Bool :=
  if n.value = "" then false
  else containsSubstr (jsToLower n.value) searchText

/-- Lines 53-68 of `PDFViewer.tsx`: the tree-walker loop over one text
layer.  `pi`/`ni` locate nodes for the firstMatch bookkeeping; `found` and
`fm` are the loop variables `found` and `firstMatch`. -/
def scanNodes (st : String) (pi : Nat) :
    Nat → List TextNode → Bool → Option (Nat × Nat) →
    List TextNode × Bool × Option (Nat × Nat)
  | _, [], found, fm => ([], found, fm)
  | ni, n :: ns, found, fm =>
    if nodeMatches st n then
      if n.highlighted then
        let r := scanNodes st pi (ni + 1) ns true fm
        (n :: r.1, r.2)
      else
        let fm' := match fm with
          | some x => some x
          | none => some (pi, ni)
        let r := scanNodes st pi (ni + 1) ns true fm'
        ({ n with highlighted := true } :: r.1, r.2)
    else
      let r := scanNodes st pi (ni + 1) ns found fm
      (n :: r.1, r.2)

/-- Line 46 of `PDFViewer.tsx`: `textLayers.forEach(...)`, pages in
document order. -/
def scanPages (st : String) :
    Nat → List TextLayer → Bool → Option (Nat × Nat) →
    List TextLayer × Bool × Option (Nat × Nat)
  | _, [], found, fm => ([], found, fm)
  | pi, layer :: rest, found, fm =>
    let r := scanNodes st pi 0 layer found fm
    let r' := scanPages st (pi + 1) rest r.2.1 r.2.2
    (r.1 :: r'.1, r'.2)

/-- The `scrollIntoView` call of lines 72-77: target node plus the literal
options `behavior: smooth`, `block: center`. -/
structure ScrollCmd where
  target : Nat × Nat
  behavior : String
  block : String
deriving Repr, DecidableEq

/-- Result of one `highlightText` call: the mutated document, the returned
`found` flag, and the scroll command issued (if any). -/
structure LocateResult where
  doc : ViewerDoc
  found : Bool
  scroll : Option ScrollCmd
deriving Repr, DecidableEq

/-- Lines 31-80 of `PDFViewer.tsx`: the `highlightText` routine.  The
container is modelled as always present; the guard `!text` is the
empty-string test. -/
def highlightText (text : String) (doc : ViewerDoc) : LocateResult :=
  if text = "" then ⟨doc, false, none⟩
  else
    let cleared := clearHighlights doc
    let searchText := jsToLower text
    let r := scanPages searchText 0 cleared false none
    ⟨r.1, r.2.1, r.2.2.map (fun t => ⟨t, "smooth", "center"⟩)⟩

/-! Section: zoom (`PDFViewer.tsx` lines 88-89).

The scale is a JS number; here it is modelled in exact rational arithmetic
(the clamping behaviour the claims are about is insensitive to the tiny
binary rounding of `0.1`). -/

/-- Line 88: `setScale(prev => Math.min(prev + 0.1, 2.0))`. -/
def zoomIn (scale : ℚ) : ℚ := min (scale + 1 / 10) 2

/-- Line 89: `setScale(prev => Math.max(prev - 0.1, 0.5))`. -/
def zoomOut (scale : ℚ) : ℚ := max (scale - 1 / 10) (1 / 2)

/-- The specification's formula `clamp(x, 0.5, 2.0)` (section 4.2), written
from the spec's words for comparison with the source transitions. -/
def clampScale (x : ℚ) : ℚ := min (max x (1 / 2)) 2

/-! Section: specification-side predicates for the locate claims. -/

/-- Claim-side predicate: the node's text contains `S` as a
case-insensitive substring. -/
def specContains (S : String) (n : TextNode) : Bool :=
  containsSubstr (jsToLower n.value) (jsToLower S)

/-- Index of the first node of one layer whose text contains `S`
(case-insensitively), counting from `ni`. -/
def firstMatchInLayer (S : String) : Nat → List TextNode → Option Nat
  | _, [] => none
  | ni, n :: ns =>
    if specContains S n then some ni else firstMatchInLayer S (ni + 1) ns

/-- Scan-order (page order, then in-page order) index of the first node
whose text contains `S` case-insensitively. -/
def firstMatchIdx (S : String) : Nat → ViewerDoc → Option (Nat × Nat)
  | _, [] => none
  | pi, layer :: rest =>
    match firstMatchInLayer S 0 layer with
    | some ni => some (pi, ni)
    | none => firstMatchIdx S (pi + 1) rest

/-- First-some choice on optional indices (the `if (!firstMatch)`
bookkeeping). -/
def fmOr : Option (Nat × Nat) → Option (Nat × Nat) → Option (Nat × Nat)
  | some x, _ => some x
  | none, b => b

/-- First node of one layer that matches and is not yet highlighted
(the candidates for the `firstMatch` assignment). -/
def firstNewMatch (st : String) (pi : Nat) : Nat → List TextNode → Option (Nat × Nat)
  | _, [] => none
  | ni, n :: ns =>
    if nodeMatches st n && !n.highlighted then some (pi, ni)
    else firstNewMatch st pi (ni + 1) ns

/-- Extension of `firstNewMatch` over all pages. -/
def firstNewMatchPages (st : String) : Nat → ViewerDoc → Option (Nat × Nat)
  | _, [] => none
  | pi, layer :: rest =>
    fmOr (firstNewMatch st pi 0 layer) (firstNewMatchPages st (pi + 1) rest)

/-- Per-node effect of one scan pass: a node gets (or keeps) the highlight
marking exactly when it matches or was already marked. -/
def markNode (st : String) (n : TextNode) : TextNode :=
  { n with highlighted := n.highlighted || nodeMatches st n }

/-! Section: chat panel data model (`App.tsx`). -/

/-- Model of `type Citation` in `App.tsx`: id, literal text fragment, page hint.
The JS numbers are naturals here (the sample data uses small naturals). -/
structure Citation where
  id : Nat
  text : String
  page : Nat
deriving Repr, DecidableEq

/-- Model of `type Message` in `App.tsx` (timestamps are naturals). -/
structure ChatMessage where
  id : String
  content : String
  isUser : Bool
  timestamp : Nat
  citations : List Citation
deriving Repr, DecidableEq

/-- Line 104 of `App.tsx`: the text handed to `alert` when a citation's
text is not found. -/
def noticeMessage (c : Citation) : String :=
  "The reference \"" ++ c.text ++ "\" could not be found on page " ++
    toString c.page ++ "."

/-- Lines 97-107 of `App.tsx` (`handleCitationClick`): run
`highlightText` on the citation's text; on a not-found result raise
exactly one blocking notice.  The returned list is the sequence of
notices raised by the call. -/
def handleCitationClick (c : Citation) (doc : ViewerDoc) :
    ViewerDoc × List String :=
  let r := highlightText c.text doc
  if r.found then (r.doc, []) else (r.doc, [noticeMessage c])

/-! Section: citation-marker rendering (`App.tsx` lines 110-133).

`formatMessageContent` splits the content on the regex `(\[\d+\])` (the
capture group keeps the delimiters among the parts) and renders each part
either as an activatable marker span bound to a citation, or as plain
text. -/

/-- A rendered piece of message content: plain text, or an activatable
marker bound to a citation. -/
inductive Segment where
  | plain (text : String)
  | marker (text : String) (cite : Citation)
deriving Repr, DecidableEq

/-- The literal text of a rendered segment. -/
def Segment.text : Segment → String
  | .plain t => t
  | .marker t _ => t

/-- Match of the regex `\[(\d+)\]` anchored at the head of the character
list: returns the captured digits and the remaining characters.  (`\d+`
only consumes digits, and a successful match requires the very next
character to be `]`, so the greedy-without-backtracking reading below is
exact.) -/
def matchMarkerAt : List Char → Option (List Char × List Char)
  | '[' :: rest =>
    let ds := rest.takeWhile Char.isDigit
    if ds.isEmpty then none
    else
      match rest.dropWhile Char.isDigit with
      | ']' :: rest' => some (ds, rest')
      | _ => none
  | _ => none

/-- Value of a (non-empty) digit string, as `parseInt(s, 10)` computes it
(modelled without JS float precision loss, which the sample ids never
reach). -/
def digitsToNat (ds : List Char) : Nat :=
  ds.foldl (fun n c => 10 * n + (c.toNat - '0'.toNat)) 0

/-- Split on the regex `(\[\d+\])` as `content.split` performs it: the
parts of `l`, alternating
non-delimiter runs (held in `acc`, reversed) and `[n]` delimiter tokens. -/
def splitRun (acc : List Char) : List Char → List String
  | [] => [String.mk acc.reverse]
  | c :: cs =>
    match h : matchMarkerAt (c :: cs) with
    | some (ds, rest) =>
      String.mk acc.reverse :: String.mk ('[' :: ds ++ [']']) ::
        splitRun [] rest
    | none => splitRun (c :: acc) cs
termination_by l => l.length
decreasing_by
  · rw [matchMarkerAt.eq_def] at h
    split at h
    · rename_i rest0 heq0
      simp only at h
      split at h
      · exact absurd h (by simp)
      · split at h
        · rename_i rest1 heq
          injection h with h'
          injection h' with h1 h2
          have hlen : rest0.length =
              (List.takeWhile Char.isDigit rest0).length + rest1.length + 1 := by
            conv_lhs => rw [← List.takeWhile_append_dropWhile
              (p := Char.isDigit) (l := rest0), heq]
            simp [List.length_append, Nat.add_assoc]
          rw [heq0, ← h2]
          simp only [List.length_cons]
          omega
        · exact absurd h (by simp)
    · exact absurd h (by simp)
  · simp

/-- The part list of a message content string. -/
def splitCitationTokens (content : String) : List String :=
  splitRun [] content.data

/-- Model of `part.match` against `\[(\d+)\]` followed by `parseInt`: the
number of the first marker occurring anywhere in the part, if any. -/
def findMarkerNum : List Char → Option Nat
  | [] => none
  | c :: cs =>
    match matchMarkerAt (c :: cs) with
    | some (ds, _) => some (digitsToNat ds)
    | none => findMarkerNum cs

/-- Specification-side marker test: the part is exactly one `[n]` token. -/
def isMarkerToken (s : String) : Option Nat :=
  match matchMarkerAt s.data with
  | some (ds, []) => some (digitsToNat ds)
  | _ => none

/-- Lines 110-133 of `App.tsx` (`formatMessageContent`): with no citation
list the content stays one plain run; otherwise each part carrying a
marker whose number is the id of some citation becomes an activatable
marker bound to the first such citation, every other part stays plain. -/
def formatMessageContent (content : String) (citations : List Citation) :
    List Segment :=
  if citations.isEmpty then [Segment.plain content]
  else
    (splitCitationTokens content).map (fun part =>
      match findMarkerNum part.data with
      | some n =>
        match citations.find? (fun c => c.id == n) with
        | some c => Segment.marker part c
        | none => Segment.plain part
      | none => Segment.plain part)

/-- Concatenation of a list of strings (used to relate the rendered
segments back to the original content). -/
def joinAll (l : List String) : String :=
  String.mk ((l.map String.data).flatten)

/-! Section: sending a message (`App.tsx` lines 136-165). -/

/-- The Panel's state: the transcript and the input field. -/
structure ChatState where
  messages : List ChatMessage
  input : String
deriving Repr, DecidableEq

/-- Lines 136-165 of `App.tsx` (`handleSendMessage`): a whitespace-only
input is rejected before any effect; otherwise the untrimmed input is
appended as a user message, the input field is cleared, and a delayed
canned assistant reply is scheduled (the boolean records whether the
`setTimeout` was issued; `now` stands for `Date.now()`). -/
def handleSendMessage (now : Nat) (st : ChatState) : ChatState × Bool :=
  if jsTrim st.input = "" then (st, false)
  else
    ({ messages := st.messages ++
        [{ id := toString now, content := st.input, isUser := true,
           timestamp := now, citations := [] }],
       input := "" }, true)

/-- Specification-side rendering of one split part (the claim's wording):
a part that is exactly one marker token whose number is a listed citation
id becomes an activatable marker bound to the first such citation; every
other part is plain text. -/
def renderPart (citations : List Citation) (part : String) : Segment :=
  match isMarkerToken part with
  | some n =>
    match citations.find? (fun c => c.id == n) with
    | some c => Segment.marker part c
    | none => Segment.plain part
  | none => Segment.plain part

/-! Section: lemmas and the claims. -/

theorem fmOr_none_right (fm : Option (Nat × Nat)) : fmOr fm none = fm := by
  cases fm <;> rfl

theorem fmOr_assoc (a b c : Option (Nat × Nat)) :
    fmOr (fmOr a b) c = fmOr a (fmOr b c) := by
  cases a <;> cases b <;> rfl

theorem markNode_of_highlighted {st : String} {n : TextNode}
    (h : n.highlighted = true) : markNode st n = n := by
  cases n; simp [markNode] at h ⊢; simp [h]

theorem markNode_of_match {st : String} {n : TextNode}
    (h : nodeMatches st n = true) :
    markNode st n = { n with highlighted := true } := by
  cases n; simp [markNode, h]

theorem markNode_of_no_match {st : String} {n : TextNode}
    (h : nodeMatches st n = false) : markNode st n = n := by
  cases n; simp [markNode, h]

theorem scanNodes_eq (st : String) (pi : Nat) :
    ∀ (ns : List TextNode) (ni : Nat) (found : Bool) (fm : Option (Nat × Nat)),
      scanNodes st pi ni ns found fm =
        (ns.map (markNode st), found || ns.any (nodeMatches st),
          fmOr fm (firstNewMatch st pi ni ns)) := by
  intro ns
  induction ns with
  | nil =>
    intro ni found fm
    simp [scanNodes, firstNewMatch, fmOr_none_right]
  | cons n ns ih =>
    intro ni found fm
    by_cases hm : nodeMatches st n = true
    · by_cases hh : n.highlighted = true
      · simp [scanNodes, hm, hh, ih, firstNewMatch,
          markNode_of_highlighted hh]
      · simp only [scanNodes, hm, if_true, hh, if_false, Bool.not_false,
          ih, firstNewMatch, List.map_cons, List.any_cons,
          markNode_of_match hm, Bool.true_or, Bool.or_true, Bool.true_and,
          Bool.and_true, if_true, Bool.false_eq_true]
        simp only [Prod.mk.injEq, true_and]
        cases fm <;> simp [fmOr]
    · simp only [Bool.not_eq_true] at hm
      simp [scanNodes, hm, ih, firstNewMatch, markNode_of_no_match hm]

theorem scanPages_eq (st : String) :
    ∀ (ps : List TextLayer) (pi : Nat) (found : Bool) (fm : Option (Nat × Nat)),
      scanPages st pi ps found fm =
        (ps.map (fun layer => layer.map (markNode st)),
          found || ps.any (fun layer => layer.any (nodeMatches st)),
          fmOr fm (firstNewMatchPages st pi ps)) := by
  intro ps
  induction ps with
  | nil =>
    intro pi found fm
    simp [scanPages, firstNewMatchPages, fmOr_none_right]
  | cons layer rest ih =>
    intro pi found fm
    simp only [scanPages, scanNodes_eq, ih, firstNewMatchPages,
      List.map_cons, List.any_cons, Prod.mk.injEq, true_and]
    constructor
    · cases hb : layer.any (nodeMatches st) <;> simp
    · rw [fmOr_assoc]

theorem clearHighlights_idem (doc : ViewerDoc) :
    clearHighlights (clearHighlights doc) = clearHighlights doc := by
  simp [clearHighlights, List.map_map]

theorem data_ne_nil_of_ne_empty {S : String} (h : S ≠ "") : S.data ≠ [] := by
  intro hc
  exact h (String.ext (by simpa using hc))

theorem nodeMatches_jsToLower {S : String} (h : S ≠ "") (n : TextNode) :
    nodeMatches (jsToLower S) n = specContains S n := by
  by_cases hv : n.value = ""
  · simp only [nodeMatches, specContains, hv, if_true, containsSubstr,
      jsToLower]
    cases hd : S.data with
    | nil => exact absurd hd (data_ne_nil_of_ne_empty h)
    | cons a as => simp [hasSubstr, hd, List.isEmpty]
  · simp [nodeMatches, specContains, hv]

theorem firstNewMatch_cleared (S : String) (h : S ≠ "") (pi : Nat) :
    ∀ (layer : List TextNode) (ni : Nat),
      firstNewMatch (jsToLower S) pi ni
          (layer.map (fun n => { n with highlighted := false })) =
        (firstMatchInLayer S ni layer).map (fun k => (pi, k)) := by
  intro layer
  induction layer with
  | nil => intro ni; simp [firstNewMatch, firstMatchInLayer]
  | cons n ns ih =>
    intro ni
    have hm : nodeMatches (jsToLower S) { n with highlighted := false } =
        specContains S n := by
      rw [nodeMatches_jsToLower h]
      cases n; rfl
    by_cases hc : specContains S n = true
    · simp [firstNewMatch, firstMatchInLayer, hm, hc]
    · simp only [Bool.not_eq_true] at hc
      simp [firstNewMatch, firstMatchInLayer, hm, hc, ih]

theorem firstNewMatchPages_cleared (S : String) (h : S ≠ "") :
    ∀ (doc : ViewerDoc) (pi : Nat),
      firstNewMatchPages (jsToLower S) pi (clearHighlights doc) =
        firstMatchIdx S pi doc := by
  intro doc
  induction doc with
  | nil => intro pi; simp [firstNewMatchPages, firstMatchIdx, clearHighlights]
  | cons layer rest ih =>
    intro pi
    simp only [clearHighlights, List.map_cons] at ih ⊢
    simp only [firstNewMatchPages, firstMatchIdx,
      firstNewMatch_cleared S h, ih]
    cases firstMatchInLayer S 0 layer <;> simp [fmOr]

theorem highlightText_doc {S : String} (h : S ≠ "") (doc : ViewerDoc) :
    (highlightText S doc).doc =
      doc.map (fun layer => layer.map
        (fun n => { n with highlighted := specContains S n })) := by
  simp only [highlightText]
  rw [if_neg h]
  simp only [scanPages_eq, clearHighlights, List.map_map]
  congr 1
  funext layer
  simp only [Function.comp_apply]
  rw [List.map_map]
  congr 1
  funext n
  cases n with
  | mk v b =>
    simp [markNode, Function.comp, nodeMatches_jsToLower h]
    rfl

theorem highlightText_found {S : String} (h : S ≠ "") (doc : ViewerDoc) :
    (highlightText S doc).found =
      doc.any (fun layer => layer.any (specContains S)) := by
  simp only [highlightText]
  rw [if_neg h]
  simp only [scanPages_eq, clearHighlights, Bool.false_or, List.any_map]
  congr 1
  funext layer
  simp only [Function.comp_apply]
  rw [List.any_map]
  congr 1
  funext n
  cases n with
  | mk v b =>
    simp only [Function.comp_apply]
    rw [nodeMatches_jsToLower h]
    rfl

theorem highlightText_scroll {S : String} (h : S ≠ "") (doc : ViewerDoc) :
    (highlightText S doc).scroll =
      (firstMatchIdx S 0 doc).map (fun t => ⟨t, "smooth", "center"⟩) := by
  simp only [highlightText]
  rw [if_neg h]
  simp only [scanPages_eq]
  have := firstNewMatchPages_cleared S h doc 0
  simp [fmOr, this]

theorem firstMatchInLayer_eq_none (S : String) :
    ∀ (layer : List TextNode) (ni : Nat),
      (firstMatchInLayer S ni layer = none ↔
        layer.any (specContains S) = false) := by
  intro layer
  induction layer with
  | nil => intro ni; simp [firstMatchInLayer]
  | cons n ns ih =>
    intro ni
    by_cases hc : specContains S n = true
    · simp [firstMatchInLayer, hc]
    · simp only [Bool.not_eq_true] at hc
      simp [firstMatchInLayer, hc, ih]

theorem firstMatchIdx_eq_none (S : String) :
    ∀ (doc : ViewerDoc) (pi : Nat),
      (firstMatchIdx S pi doc = none ↔
        doc.any (fun l => l.any (specContains S)) = false) := by
  intro doc
  induction doc with
  | nil => intro pi; simp [firstMatchIdx]
  | cons layer rest ih =>
    intro pi
    simp only [firstMatchIdx]
    cases hf : firstMatchInLayer S 0 layer with
    | some ni =>
      have := (firstMatchInLayer_eq_none S layer 0)
      simp only [hf] at this
      simp only [List.any_cons]
      constructor
      · intro hc; exact absurd hc (by simp)
      · intro hc
        rcases Bool.or_eq_false_iff.mp hc with ⟨h1, _⟩
        exact absurd h1 (by simp [hf] at this; simp [this])
    | none =>
      have hl := (firstMatchInLayer_eq_none S layer 0).mp hf
      simp [ih, hl]

/-- C9: calling locate with an empty string returns found,false and changes
nothing: no scan, no scroll, and the pre-existing highlight set is exactly
preserved. -/
theorem C9_empty_locate_noop (doc : ViewerDoc) :
    highlightText "" doc = ⟨doc, false, none⟩ := rfl

/-- C1: for every non-empty search string, locate returns found,true iff at
least one single text-layer node's text contains the string as a
case-insensitive substring; a string present only across several adjacent
fragments is therefore not found. -/
theorem C1_found_iff_single_node (S : String) (h : S ≠ "") (doc : ViewerDoc) :
    (highlightText S doc).found = true ↔
      ∃ n ∈ doc.flatten, specContains S n = true := by
  rw [highlightText_found h]
  simp [List.any_eq_true, List.mem_flatten]
  tauto

theorem C1_witness :
    ("ab" ≠ "") ∧
      (((highlightText "ab" [[⟨"xa", false⟩, ⟨"b", false⟩]]).found = true) ↔
        ∃ n ∈ ([[⟨"xa", false⟩, ⟨"b", false⟩]] : ViewerDoc).flatten,
          specContains "ab" n = true) :=
  ⟨by decide, C1_found_iff_single_node "ab" (by decide) _⟩

/-- C2: after a locate call with a non-empty string, exactly the nodes whose
text contains the string case-insensitively carry the highlight marking:
every matching node is marked (the class set keeps marking idempotent, so no
node is marked twice) and no other node is marked. -/
theorem C2_exact_highlight_set (S : String) (h : S ≠ "") (doc : ViewerDoc) :
    (highlightText S doc).doc =
      doc.map (fun layer => layer.map
        (fun n => { n with highlighted := specContains S n })) :=
  highlightText_doc h doc

theorem C2_witness :
    ("ab" ≠ "") ∧
      (highlightText "ab" [[⟨"xAb", true⟩, ⟨"cd", true⟩]]).doc =
        ([[⟨"xAb", true⟩, ⟨"cd", true⟩]] : ViewerDoc).map
          (fun layer => layer.map
            (fun n => { n with highlighted := specContains "ab" n })) :=
  ⟨by decide, C2_exact_highlight_set "ab" (by decide) _⟩

/-- C3: locate with a non-empty string clears all existing highlight
markings before scanning (its result on any document equals its result on
the cleared document), so after two successive locate calls no highlighted
node is left over from the first call that does not match the second
string. -/
theorem C3_clear_before_scan (S1 S2 : String) (h : S2 ≠ "")
    (doc : ViewerDoc) :
    highlightText S2 ((highlightText S1 doc).doc) =
      highlightText S2 (clearHighlights ((highlightText S1 doc).doc)) ∧
    ∀ n ∈ ((highlightText S2 ((highlightText S1 doc).doc)).doc).flatten,
      n.highlighted = true → specContains S2 n = true := by
  constructor
  · simp only [highlightText]
    rw [if_neg h, if_neg h, clearHighlights_idem]
  · intro n hn hh
    rw [highlightText_doc h] at hn
    simp only [List.mem_flatten, List.mem_map] at hn
    rcases hn with ⟨layer, ⟨layer0, _, rfl⟩, hn⟩
    simp only [List.mem_map] at hn
    rcases hn with ⟨n0, _, rfl⟩
    simp only at hh
    cases n0 with
    | mk v b =>
      simp only at hh ⊢
      rw [← hh]
      rfl

theorem C3_witness :
    ("b" ≠ "") ∧
      (highlightText "b" ((highlightText "a" [[⟨"az", false⟩, ⟨"b", false⟩]]).doc) =
        highlightText "b"
          (clearHighlights ((highlightText "a" [[⟨"az", false⟩, ⟨"b", false⟩]]).doc)) ∧
       ∀ n ∈ ((highlightText "b"
            ((highlightText "a" [[⟨"az", false⟩, ⟨"b", false⟩]]).doc)).doc).flatten,
         n.highlighted = true → specContains "b" n = true) :=
  ⟨by decide, C3_clear_before_scan "a" "b" (by decide) _⟩

/-- C4: for a non-empty search string, the scroll command targets exactly
the first matching node in scan order (page order, then in-page order),
with the literal smooth/center options; no match means no scroll. -/
theorem C4_scroll_first_match (S : String) (h : S ≠ "") (doc : ViewerDoc) :
    (highlightText S doc).scroll =
      (firstMatchIdx S 0 doc).map (fun t => ⟨t, "smooth", "center"⟩) ∧
    ((highlightText S doc).scroll = none ↔
      (highlightText S doc).found = false) := by
  refine ⟨highlightText_scroll h doc, ?_⟩
  rw [highlightText_scroll h, highlightText_found h]
  cases hf : firstMatchIdx S 0 doc with
  | some t =>
    constructor
    · intro hc; exact absurd hc (by simp)
    · intro hc
      have := (firstMatchIdx_eq_none S doc 0).mpr hc
      rw [hf] at this
      exact absurd this (by simp)
  | none =>
    have := (firstMatchIdx_eq_none S doc 0).mp hf
    simp [this]

theorem C4_witness :
    ("b" ≠ "") ∧
      ((highlightText "b" [[⟨"az", false⟩, ⟨"Bz", false⟩], [⟨"b", false⟩]]).scroll =
        (firstMatchIdx "b" 0 [[⟨"az", false⟩, ⟨"Bz", false⟩], [⟨"b", false⟩]]).map
          (fun t => ⟨t, "smooth", "center"⟩) ∧
       ((highlightText "b" [[⟨"az", false⟩, ⟨"Bz", false⟩], [⟨"b", false⟩]]).scroll = none ↔
        (highlightText "b" [[⟨"az", false⟩, ⟨"Bz", false⟩], [⟨"b", false⟩]]).found = false)) :=
  ⟨by decide, C4_scroll_first_match "b" (by decide) _⟩

theorem leadMatch_self_append : ∀ (pat r : List Char),
    leadMatch pat (pat ++ r) = true := by
  intro pat
  induction pat with
  | nil => intro r; simp [leadMatch]
  | cons a as ih => intro r; simp [leadMatch, ih]

theorem hasSubstr_nil : ∀ (l : List Char), hasSubstr [] l = true := by
  intro l
  cases l with
  | nil => rfl
  | cons a t => simp [hasSubstr, leadMatch]

theorem hasSubstr_self_append : ∀ (pat r : List Char),
    hasSubstr pat (pat ++ r) = true := by
  intro pat r
  cases pat with
  | nil => simp [hasSubstr_nil]
  | cons p ps =>
    simp [hasSubstr, leadMatch, leadMatch_self_append]

theorem hasSubstr_append_left : ∀ (l₁ l₂ pat : List Char),
    hasSubstr pat l₂ = true → hasSubstr pat (l₁ ++ l₂) = true := by
  intro l₁
  induction l₁ with
  | nil => intro l₂ pat h; simpa using h
  | cons a t ih =>
    intro l₂ pat h
    simp only [List.cons_append, hasSubstr, List.tail_cons, List.append_eq]
    rw [ih l₂ pat h]
    simp

/-- C5: activating a resolved citation runs locate on the citation's text;
a not-found result raises exactly one blocking notice, whose text contains
the citation text and the page hint; a found result raises no notice; and
the only state handed back is the locate result's document (no navigation
to the hinted page). -/
theorem C5_citation_click (c : Citation) (doc : ViewerDoc) :
    (handleCitationClick c doc).1 = (highlightText c.text doc).doc ∧
    ((highlightText c.text doc).found = true →
      (handleCitationClick c doc).2 = []) ∧
    ((highlightText c.text doc).found = false →
      (handleCitationClick c doc).2 = [noticeMessage c]) ∧
    containsSubstr (noticeMessage c) c.text = true ∧
    containsSubstr (noticeMessage c) (toString c.page) = true := by
  refine ⟨?_, ?_, ?_, ?_, ?_⟩
  · simp only [handleCitationClick]
    cases hf : (highlightText c.text doc).found <;> simp [hf]
  · intro hf; simp [handleCitationClick, hf]
  · intro hf; simp [handleCitationClick, hf]
  · simp only [containsSubstr, noticeMessage, String.data_append,
      List.append_assoc]
    apply hasSubstr_append_left
    apply hasSubstr_self_append
  · simp only [containsSubstr, noticeMessage, String.data_append,
      List.append_assoc]
    apply hasSubstr_append_left
    apply hasSubstr_append_left
    apply hasSubstr_append_left
    apply hasSubstr_self_append

theorem C5_witness :
    ((highlightText (Citation.mk 1 "ab" 3).text [[⟨"xAby", false⟩]]).found = true ∧
      (handleCitationClick (Citation.mk 1 "ab" 3) [[⟨"xAby", false⟩]]).2 = []) ∧
    ((highlightText (Citation.mk 2 "zz" 5).text [[⟨"xAby", false⟩]]).found = false ∧
      (handleCitationClick (Citation.mk 2 "zz" 5) [[⟨"xAby", false⟩]]).2 =
        [noticeMessage (Citation.mk 2 "zz" 5)]) :=
  ⟨⟨by decide, (C5_citation_click (Citation.mk 1 "ab" 3) [[⟨"xAby", false⟩]]).2.1 (by decide)⟩,
   ⟨by decide, (C5_citation_click (Citation.mk 2 "zz" 5) [[⟨"xAby", false⟩]]).2.2.1 (by decide)⟩⟩

/-- C7 counterexample: six consecutive zoom-in actions from scale 1.0 yield
1.6, not the claimed 2.0. -/
theorem C7_counterexample :
    zoomIn^[6] (1 : ℚ) = 8 / 5 ∧ zoomIn^[6] (1 : ℚ) ≠ 2 := by
  constructor <;>
    · simp only [show (6 : ℕ) = 5 + 1 from rfl, Function.iterate_succ_apply,
        Function.iterate_succ_apply']
      norm_num [zoomIn, min_def]

/-- C7 (amended): from scale 1.0, six zoom-ins yield 1.6 (the 2.0 clamp
never engages; ten zoom-ins are needed to reach 2.0 by clamping), while six
zoom-outs yield 0.5, reached by clamping (the unclamped sixth step would be
0.4). -/
theorem C7_zoom_steps :
    zoomIn^[6] (1 : ℚ) = 8 / 5 ∧ zoomIn^[10] (1 : ℚ) = 2 ∧
    zoomOut^[6] (1 : ℚ) = 1 / 2 ∧ zoomOut^[5] (1 : ℚ) - 1 / 10 = 2 / 5 := by
  refine ⟨?_, ?_, ?_, ?_⟩ <;>
    · simp only [show (6 : ℕ) = 5 + 1 from rfl, show (5 : ℕ) = 4 + 1 from rfl,
        show (10 : ℕ) = 9 + 1 from rfl, Function.iterate_succ_apply,
        Function.iterate_succ_apply']
      norm_num [zoomIn, zoomOut, min_def, max_def]

/-- C8 counterexample: at scale 0.3 a zoom-in step gives 0.4, while the
claimed two-sided clamp formula gives 0.5 — zoom-in only clamps from
above. -/
theorem C8_counterexample :
    zoomIn (3 / 10 : ℚ) = 2 / 5 ∧ clampScale (3 / 10 + 1 / 10) = 1 / 2 ∧
    zoomIn (3 / 10 : ℚ) ≠ clampScale (3 / 10 + 1 / 10) := by
  refine ⟨?_, ?_, ?_⟩ <;> norm_num [zoomIn, clampScale, min_def, max_def]

/-- C8 (amended): zoom-in is min(scale+0.1, 2.0) and zoom-out is
max(scale-0.1, 0.5); on every scale already in the interval 0.5 to 2.0 they
agree with the clamp formula, and their results stay in that interval. -/
theorem C8_zoom_clamp (s : ℚ) (h1 : 1 / 2 ≤ s) (h2 : s ≤ 2) :
    zoomIn s = clampScale (s + 1 / 10) ∧
    zoomOut s = clampScale (s - 1 / 10) ∧
    1 / 2 ≤ zoomIn s ∧ zoomIn s ≤ 2 ∧
    1 / 2 ≤ zoomOut s ∧ zoomOut s ≤ 2 := by
  have ha : max (s + 1 / 10) (1 / 2 : ℚ) = s + 1 / 10 :=
    max_eq_left (by linarith)
  have hb : min (max (s - 1 / 10) (1 / 2 : ℚ)) 2 = max (s - 1 / 10) (1 / 2) :=
    min_eq_left (max_le (by linarith) (by linarith))
  refine ⟨?_, ?_, ?_, ?_, ?_, ?_⟩
  · show min (s + 1 / 10) 2 = min (max (s + 1 / 10) (1 / 2)) 2
    rw [ha]
  · show max (s - 1 / 10) (1 / 2) = min (max (s - 1 / 10) (1 / 2)) 2
    rw [hb]
  · exact le_min (by linarith) (by norm_num)
  · exact min_le_right _ _
  · exact le_max_right _ _
  · exact max_le (by linarith) (by norm_num)

theorem C8_witness :
    (1 / 2 ≤ (1 : ℚ) ∧ (1 : ℚ) ≤ 2) ∧
      (zoomIn (1 : ℚ) = clampScale (1 + 1 / 10) ∧
        zoomOut (1 : ℚ) = clampScale (1 - 1 / 10)) :=
  ⟨⟨by norm_num, by norm_num⟩,
   ⟨(C8_zoom_clamp 1 (by norm_num) (by norm_num)).1,
    (C8_zoom_clamp 1 (by norm_num) (by norm_num)).2.1⟩⟩

theorem jsTrim_eq_empty_iff (s : String) :
    jsTrim s = "" ↔ s.data.all Char.isWhitespace = true := by
  constructor
  · intro h
    have hd : (((s.data.dropWhile Char.isWhitespace).reverse.dropWhile
        Char.isWhitespace).reverse) = [] := by
      have := congrArg String.data h
      simpa [jsTrim] using this
    rw [List.reverse_eq_nil_iff, List.dropWhile_eq_nil_iff] at hd
    rw [List.all_eq_true]
    intro x hx
    rw [← List.takeWhile_append_dropWhile
      (p := Char.isWhitespace) (l := s.data)] at hx
    rcases List.mem_append.mp hx with h1 | h1
    · exact List.mem_takeWhile_imp h1
    · exact hd x (List.mem_reverse.mpr h1)
  · intro h
    rw [List.all_eq_true] at h
    have h1 : s.data.dropWhile Char.isWhitespace = [] := by
      rw [List.dropWhile_eq_nil_iff]
      intro x hx
      exact h x hx
    apply String.ext
    simp [jsTrim, h1]

/-- C10: submitting the send form with an input that is empty or all
whitespace appends nothing, schedules no delayed reply and leaves the
state untouched; any other input appends exactly one user message carrying
the untrimmed input, clears the field and schedules the delayed reply. -/
theorem C10_send_message (now : Nat) (st : ChatState) :
    (jsTrim st.input = "" ↔ st.input.data.all Char.isWhitespace = true) ∧
    (jsTrim st.input = "" → handleSendMessage now st = (st, false)) ∧
    (jsTrim st.input ≠ "" →
      handleSendMessage now st =
        ({ messages := st.messages ++
            [{ id := toString now, content := st.input, isUser := true,
               timestamp := now, citations := [] }],
           input := "" }, true)) := by
  refine ⟨jsTrim_eq_empty_iff st.input, ?_, ?_⟩
  · intro h; simp [handleSendMessage, h]
  · intro h; simp [handleSendMessage, h]

theorem C10_witness :
    (jsTrim (ChatState.mk [] "  ").input = "" ∧
      handleSendMessage 7 (ChatState.mk [] "  ") = (ChatState.mk [] "  ", false)) ∧
    (jsTrim (ChatState.mk [] " hi ").input ≠ "" ∧
      handleSendMessage 7 (ChatState.mk [] " hi ") =
        (ChatState.mk [ChatMessage.mk (toString 7) " hi " true 7 []] "",
          true)) :=
  ⟨⟨by decide, (C10_send_message 7 (ChatState.mk [] "  ")).2.1 (by decide)⟩,
   ⟨by decide, by
      have := (C10_send_message 7 (ChatState.mk [] " hi ")).2.2 (by decide)
      simpa using this⟩⟩

theorem takeWhile_all_append {p : Char → Bool} :
    ∀ (d : List Char) (a : Char) (t : List Char),
      (∀ x ∈ d, p x = true) → p a = false →
      ((d ++ a :: t).takeWhile p = d ∧ (d ++ a :: t).dropWhile p = a :: t) := by
  intro d
  induction d with
  | nil =>
    intro a t _ hpa
    simp [List.takeWhile, List.dropWhile, hpa]
  | cons x xs ih =>
    intro a t hall hpa
    have hx : p x = true := hall x (by simp)
    have := ih a t (fun y hy => hall y (by simp [hy])) hpa
    simp [List.takeWhile, List.dropWhile, hx, this.1, this.2]

theorem matchMarkerAt_build {ds : List Char} (hne : ds ≠ [])
    (hdig : ∀ c ∈ ds, c.isDigit = true) (r : List Char) :
    matchMarkerAt ('[' :: (ds ++ ']' :: r)) = some (ds, r) := by
  have htw := takeWhile_all_append ds ']' r hdig (by decide)
  simp only [matchMarkerAt, htw.1, htw.2]
  simp [List.isEmpty_iff, hne]

theorem matchMarkerAt_some :
    ∀ {l ds rest}, matchMarkerAt l = some (ds, rest) →
      l = '[' :: (ds ++ ']' :: rest) ∧ ds ≠ [] ∧
        ∀ c ∈ ds, c.isDigit = true := by
  intro l ds rest h
  match l with
  | [] => simp [matchMarkerAt] at h
  | c :: cs =>
    rw [matchMarkerAt.eq_def] at h
    split at h
    · rename_i rest0 heq0
      simp only at h
      split at h
      · exact absurd h (by simp)
      · rename_i hne
        split at h
        · rename_i rest1 heq
          injection h with h'
          injection h' with h1 h2
          subst h1; subst h2
          refine ⟨?_, ?_, ?_⟩
          · rw [heq0]
            congr 1
            conv_lhs => rw [← List.takeWhile_append_dropWhile
              (p := Char.isDigit) (l := rest0), heq]
          · simpa [List.isEmpty_iff] using hne
          · intro c hc
            exact List.mem_takeWhile_imp hc
        · exact absurd h (by simp)
    · exact absurd h (by simp)

theorem matchMarkerAt_extend {l ds rest} (h : matchMarkerAt l = some (ds, rest))
    (w : List Char) : matchMarkerAt (l ++ w) = some (ds, rest ++ w) := by
  obtain ⟨hl, hne, hdig⟩ := matchMarkerAt_some h
  rw [hl]
  have : ('[' :: (ds ++ ']' :: rest)) ++ w = '[' :: (ds ++ ']' :: (rest ++ w)) := by
    simp
  rw [this, matchMarkerAt_build hne hdig]

theorem splitRun_join : ∀ (acc l : List Char),
    ((splitRun acc l).map String.data).flatten = acc.reverse ++ l := by
  intro acc l
  induction acc, l using splitRun.induct with
  | case1 acc => simp [splitRun]
  | case2 acc b l ds rest h ih =>
    obtain ⟨hl, _, _⟩ := matchMarkerAt_some h
    rw [splitRun, h]
    simp only [List.map_cons, List.flatten_cons, ih, List.reverse_nil,
      List.nil_append]
    rw [hl]
    simp
  | case3 acc b l h ih =>
    rw [splitRun, h]
    simp only [ih, List.reverse_cons]
    simp

theorem suffix_concat {v xs : List Char} {c : Char}
    (h : v <:+ xs ++ [c]) (hne : v ≠ []) :
    ∃ v', v = v' ++ [c] ∧ v' <:+ xs := by
  obtain ⟨u, hu⟩ := h
  rcases List.eq_nil_or_concat v with rfl | ⟨v', a, rfl⟩
  · exact absurd rfl hne
  · simp only [List.concat_eq_append] at hu ⊢
    rw [← List.append_assoc] at hu
    have h2 := List.append_inj' hu (by simp)
    have ha : a = c := by
      have := h2.2
      injection this
    exact ⟨v', by rw [ha], ⟨u, h2.1⟩⟩

theorem findMarkerNum_none : ∀ (l : List Char),
    (∀ v, v <:+ l → matchMarkerAt v = none) → findMarkerNum l = none := by
  intro l
  induction l with
  | nil => intro _; rfl
  | cons c cs ih =>
    intro h
    have h0 := h (c :: cs) (List.suffix_refl _)
    simp only [findMarkerNum, h0]
    exact ih (fun v hv => h v (hv.trans (List.suffix_cons c cs)))

theorem splitRun_classify : ∀ (acc l : List Char),
    (∀ v, v ≠ [] → v <:+ acc.reverse → matchMarkerAt (v ++ l) = none) →
    ∀ part ∈ splitRun acc l, findMarkerNum part.data = isMarkerToken part := by
  intro acc l
  induction acc, l using splitRun.induct with
  | case1 acc =>
    intro hinv part hp
    simp only [splitRun, List.mem_singleton] at hp
    subst hp
    have hnone : ∀ v, v <:+ acc.reverse → matchMarkerAt v = none := by
      intro v hv
      cases hv' : v with
      | nil => rfl
      | cons a t =>
        have h2 := hinv v (by simp [hv']) hv
        rw [hv'] at h2
        simpa using h2
    show findMarkerNum acc.reverse = isMarkerToken (String.mk acc.reverse)
    rw [findMarkerNum_none _ hnone]
    simp [isMarkerToken, hnone acc.reverse (List.suffix_refl _)]
  | case2 acc b l ds rest h ih =>
    intro hinv part hp
    rw [splitRun, h] at hp
    obtain ⟨hl, hne, hdig⟩ := matchMarkerAt_some h
    have hb : matchMarkerAt ('[' :: (ds ++ ']' :: ([] : List Char))) =
        some (ds, []) := matchMarkerAt_build hne hdig []
    rcases List.mem_cons.mp hp with rfl | hp2
    · -- the plain part accumulated so far
      have hnone : ∀ v, v <:+ acc.reverse → matchMarkerAt v = none := by
        intro v hv
        cases hm : matchMarkerAt v with
        | none => rfl
        | some pr =>
          obtain ⟨ds1, r1⟩ := pr
          have hv_ne : v ≠ [] := by
            intro hc; rw [hc] at hm; exact absurd hm (by simp [matchMarkerAt])
          have hext := matchMarkerAt_extend hm (b :: l)
          have := hinv v hv_ne hv
          rw [this] at hext
          exact absurd hext (by simp)
      show findMarkerNum acc.reverse = isMarkerToken (String.mk acc.reverse)
      rw [findMarkerNum_none _ hnone]
      simp [isMarkerToken, hnone acc.reverse (List.suffix_refl _)]
    rcases List.mem_cons.mp hp2 with rfl | hp3
    · -- the marker token itself
      show findMarkerNum ('[' :: ds ++ [']']) =
        isMarkerToken (String.mk ('[' :: ds ++ [']']))
      have hsh : ('[' : Char) :: ds ++ [']'] = '[' :: (ds ++ ']' :: []) := by
        simp
      rw [hsh]
      simp only [findMarkerNum, hb, isMarkerToken]
    · -- parts of the remainder
      refine ih ?_ part hp3
      intro v hv_ne hv
      simp only [List.reverse_nil] at hv
      rcases List.suffix_nil.mp hv with rfl
      exact absurd rfl hv_ne
  | case3 acc b l h ih =>
    intro hinv part hp
    rw [splitRun, h] at hp
    refine ih ?_ part hp
    intro v hv_ne hv
    simp only [List.reverse_cons] at hv
    obtain ⟨v', rfl, hv'⟩ := suffix_concat hv hv_ne
    cases hv'' : v' with
    | nil => simpa using h
    | cons a t =>
      have h2 := hinv v' (by simp [hv'']) hv'
      rw [hv''] at h2
      simpa using h2

theorem renderPart_text (cs : List Citation) (part : String) :
    (renderPart cs part).text = part := by
  cases hm : isMarkerToken part with
  | none => simp [renderPart, hm, Segment.text]
  | some n =>
    cases hf : cs.find? (fun c => c.id == n) with
    | none => simp [renderPart, hm, hf, Segment.text]
    | some c => simp [renderPart, hm, hf, Segment.text]

/-- C6: with a non-empty citation list, each part of the content produced by
the marker split renders as an activatable marker exactly when it is a
whole marker token whose number is the id of some listed citation (bound to
the first such citation), and as plain text otherwise; the rendered
segments concatenate back to the original content. -/
theorem C6_citation_markers (content : String) (citations : List Citation)
    (h : citations ≠ []) :
    formatMessageContent content citations =
      (splitCitationTokens content).map (renderPart citations) ∧
    joinAll ((formatMessageContent content citations).map Segment.text) =
      content := by
  have hne : citations.isEmpty = false := by
    simpa [List.isEmpty_iff] using h
  have hmain : formatMessageContent content citations =
      (splitCitationTokens content).map (renderPart citations) := by
    simp only [formatMessageContent, hne, Bool.false_eq_true, if_false]
    apply List.map_congr_left
    intro part hp
    have hcl := splitRun_classify [] content.data
      (by intro v hv_ne hv; simp at hv; exact absurd hv hv_ne) part hp
    rw [hcl, renderPart]
  refine ⟨hmain, ?_⟩
  rw [hmain, List.map_map]
  have htext : (splitCitationTokens content).map
      (Segment.text ∘ renderPart citations) =
      splitCitationTokens content := by
    conv_rhs => rw [← List.map_id (splitCitationTokens content)]
    apply List.map_congr_left
    intro part _
    simp [Function.comp, renderPart_text]
  rw [htext]
  show String.mk (((splitRun [] content.data).map String.data).flatten) =
    content
  rw [splitRun_join]
  rfl

theorem C6_witness :
    (([⟨1, "one", 3⟩, ⟨2, "two", 5⟩] : List Citation) ≠ []) ∧
      (formatMessageContent "growth [1][2] x [9]" [⟨1, "one", 3⟩, ⟨2, "two", 5⟩] =
        (splitCitationTokens "growth [1][2] x [9]").map
          (renderPart [⟨1, "one", 3⟩, ⟨2, "two", 5⟩]) ∧
       joinAll ((formatMessageContent "growth [1][2] x [9]"
            [⟨1, "one", 3⟩, ⟨2, "two", 5⟩]).map Segment.text) =
        "growth [1][2] x [9]") :=
  ⟨by decide, C6_citation_markers "growth [1][2] x [9]"
    [⟨1, "one", 3⟩, ⟨2, "two", 5⟩] (by decide)⟩
